import Mathlib

/-!
# Verification of the LCB-Software interrupt-driven transfer engines

Shallow embedding of the I2C driver (`example_codes/F28386D_I2C/myI2C.c`) and the
SPI driver (`example_codes/F28386D_SPI/mySPI.c`) of the LCB-Software repository.

The driver-owned global variables and the hardware registers the drivers touch are
collected into one state record per channel.  Every public driver function becomes a
pure function on that record; the interrupt service routines become state-to-state
functions; the hardware peripheral (an external collaborator in the design) is
modelled by an explicit environment step that shifts bytes between the FIFOs.
Status-register bits that the C code clears by writing 1 (SCD, NACK of I2CSTR) are
modelled with write-one-to-clear semantics: the write stores `false` into the bit.
-/

namespace LCB

/-! ## Generic list helpers

`writeSeq buf i data` writes the elements of `data` into `buf` at consecutive
positions `i, i+1, ...` — the effect of the C loops that copy FIFO contents into a
software buffer element by element. -/

def writeSeq : List Nat → Nat → List Nat → List Nat
  | buf, _, [] => buf
  | buf, i, b :: bs => writeSeq (buf.set i b) (i + 1) bs

/-- Reading `n` values from a hardware receive FIFO: each read pops the oldest
element; a read from an empty FIFO yields 0.  Returns the values read and the
remaining FIFO content. -/
def fifoReadN : List Nat → Nat → List Nat × List Nat
  | q, 0 => ([], q)
  | [], n + 1 => (0 :: (fifoReadN [] n).1, [])
  | b :: q, n + 1 =>
      let p := fifoReadN q n
      (b :: p.1, p.2)

theorem writeSeq_length : ∀ (xs : List Nat) (buf : List Nat) (i : Nat),
    (writeSeq buf i xs).length = buf.length := by
  intro xs
  induction xs with
  | nil => intro buf i; rfl
  | cons b bs ih => intro buf i; simp [writeSeq, ih]

/-! ## I2C driver model (`myI2C.c`, module A)

Constants from `myI2C.h`. -/

def I2C_SIZE_HARDWARE_FIFO : Nat := 16
def I2C_STATUS_IDLE : Nat := 0
def I2C_STATUS_IN_PROGRESS : Nat := 1
def I2C_STATUS_FINISHED : Nat := 2
def I2C_STATUS_ERROR : Nat := 3

/-- Driver-owned globals of `myI2C.c` together with the hardware registers of the
I2C-A module that the driver reads or writes.  The transmit FIFO (fed through
`I2CDXR`) and receive FIFO (drained through `I2CDRR`) are lists, oldest first. -/
structure I2cState where
  /-- `i2cBufferWriteA[]`, 16 elements -/
  bufferWrite : List Nat
  /-- `i2cBufferReadA[]`, 16 elements -/
  bufferRead : List Nat
  /-- `i2cBytesToReadAfterRSA` -/
  bytesToReadAfterRS : Nat
  /-- `i2cStatusFlagA` -/
  statusFlag : Nat
  /-- `I2caRegs.I2CSTR.bit.BB` (bus busy) -/
  bb : Bool
  /-- `I2caRegs.I2CSTR.bit.SCD` (stop condition detected), write-1-to-clear -/
  scd : Bool
  /-- `I2caRegs.I2CSTR.bit.NACK`, write-1-to-clear -/
  nack : Bool
  /-- `I2caRegs.I2CSTR.bit.ARDY` (registers ready / all bytes transferred) -/
  ardy : Bool
  /-- `I2caRegs.I2CMDR.bit.STP` (stop pending) -/
  stp : Bool
  /-- `I2caRegs.I2CMDR.bit.STT` (start / repeated start) -/
  stt : Bool
  /-- `I2caRegs.I2CMDR.bit.MST` -/
  mst : Bool
  /-- `I2caRegs.I2CMDR.bit.TRX` (transmit mode) -/
  trx : Bool
  /-- `I2caRegs.I2CSAR.bit.SAR` (slave address) -/
  sar : Nat
  /-- `I2caRegs.I2CCNT` -/
  cnt : Nat
  /-- hardware transmit FIFO, fed via `I2CDXR` -/
  txFifo : List Nat
  /-- hardware receive FIFO, drained via `I2CDRR` -/
  rxFifo : List Nat
  /-- `I2caRegs.I2CIER.bit.ARDY` (pivot interrupt source enable) -/
  ierArdy : Bool
  deriving DecidableEq

/-- `I2cGetStatusA` (myI2C.c, lines 234-247): while the STP bit is still set the
communication counts as in progress, whatever the software flag says. -/
def I2cGetStatusA (s : I2cState) : Nat :=
  if s.stp then I2C_STATUS_IN_PROGRESS else s.statusFlag

/-- `I2cSetStatusIdleA` (myI2C.c, lines 261-272): set the flag to idle and return
true unless a communication is still active. -/
def I2cSetStatusIdleA (s : I2cState) : Bool × I2cState :=
  if s.statusFlag ≠ I2C_STATUS_IN_PROGRESS then
    (true, { s with statusFlag := I2C_STATUS_IDLE })
  else
    (false, s)

/-- The guard of `I2cWriteA` and `I2cReadA` (myI2C.c, lines 299-303 / 355-359):
no communication active, bus free, no stop pending, byte count in [1,16]. -/
def i2cStartPre (s : I2cState) (numberOfBytes : Nat) : Prop :=
  s.statusFlag ≠ I2C_STATUS_IN_PROGRESS ∧ s.bb = false ∧ s.stp = false ∧
    numberOfBytes ≤ I2C_SIZE_HARDWARE_FIFO ∧ numberOfBytes ≠ 0

instance (s : I2cState) (n : Nat) : Decidable (i2cStartPre s n) := by
  unfold i2cStartPre; infer_instance

/-- The guard of `I2cWriteReadA` (myI2C.c, lines 409-415): both byte counts must
independently lie in [1,16]. -/
def i2cWriteReadPre (s : I2cState) (numberOfBytesWrite numberOfBytesRead : Nat) : Prop :=
  s.statusFlag ≠ I2C_STATUS_IN_PROGRESS ∧ s.bb = false ∧ s.stp = false ∧
    numberOfBytesWrite ≤ I2C_SIZE_HARDWARE_FIFO ∧
    numberOfBytesRead ≤ I2C_SIZE_HARDWARE_FIFO ∧
    numberOfBytesWrite ≠ 0 ∧ numberOfBytesRead ≠ 0

instance (s : I2cState) (nw nr : Nat) : Decidable (i2cWriteReadPre s nw nr) := by
  unfold i2cWriteReadPre; infer_instance

/-- `I2cWriteA` (myI2C.c, lines 290-328). -/
def I2cWriteA (s : I2cState) (slaveAddress numberOfBytes : Nat) : Bool × I2cState :=
  if i2cStartPre s numberOfBytes then
    (true,
      { s with
        statusFlag := I2C_STATUS_IN_PROGRESS
        mst := true
        trx := true
        sar := slaveAddress
        txFifo := s.txFifo ++ s.bufferWrite.take numberOfBytes
        cnt := numberOfBytes
        stt := true
        stp := true })
  else
    (false, s)

/-- `I2cReadA` (myI2C.c, lines 346-379). -/
def I2cReadA (s : I2cState) (slaveAddress numberOfBytes : Nat) : Bool × I2cState :=
  if i2cStartPre s numberOfBytes then
    (true,
      { s with
        statusFlag := I2C_STATUS_IN_PROGRESS
        mst := true
        trx := false
        sar := slaveAddress
        cnt := numberOfBytes
        stt := true
        stp := true })
  else
    (false, s)

/-- `I2cWriteReadA` (myI2C.c, lines 399-445): arm the write phase, record the
pending read count, enable the ARDY (pivot) interrupt source, start without a
stop condition. -/
def I2cWriteReadA (s : I2cState) (slaveAddress numberOfBytesWrite numberOfBytesRead : Nat) :
    Bool × I2cState :=
  if i2cWriteReadPre s numberOfBytesWrite numberOfBytesRead then
    (true,
      { s with
        statusFlag := I2C_STATUS_IN_PROGRESS
        mst := true
        trx := true
        sar := slaveAddress
        txFifo := s.txFifo ++ s.bufferWrite.take numberOfBytesWrite
        cnt := numberOfBytesWrite
        bytesToReadAfterRS := numberOfBytesRead
        ierArdy := true
        stt := true })
  else
    (false, s)

/-- `I2cISRA` (myI2C.c, lines 461-532), translated branch by branch:
stop-condition branch (SCD) first, NACK branch as its else-if, then the
write-read pivot guarded by `ARDY && !NACK` — evaluated on the register values
as they stand at that point, i.e. after the NACK branch has already cleared the
NACK bit if it ran. -/
def I2cISRA (s : I2cState) : I2cState :=
  let s1 :=
    if s.scd then
      -- STOP-Flag loeschen (write 1 clears)
      let sA := { s with scd := false }
      -- Daten auslesen, falls Receiver-Mode aktiv
      let sB :=
        if sA.trx = false then
          let p := fifoReadN sA.rxFifo sA.cnt
          { sA with bufferRead := writeSeq sA.bufferRead 0 p.1, rxFifo := p.2 }
        else sA
      -- Ende der Uebertragung signalisieren, falls kein Fehler aufgetreten ist
      if sB.statusFlag = I2C_STATUS_IN_PROGRESS then
        { sB with statusFlag := I2C_STATUS_FINISHED }
      else sB
    else if s.nack then
      { s with nack := false, stp := true, statusFlag := I2C_STATUS_ERROR }
    else s
  -- Write-Read pivot: ARDY set and NACK clear at this point
  if s1.ardy = true ∧ s1.nack = false then
    { s1 with
      ierArdy := false
      mst := true
      trx := false
      cnt := s1.bytesToReadAfterRS
      stt := true
      stp := true }
  else s1

/-! ## SPI driver model (`mySPI.c`, module A)

Constants from `mySPI.h`. -/

def SPI_SIZE_SOFTWARE_BUFFER : Nat := 50
def SPI_SIZE_HARDWARE_FIFO : Nat := 16
def SPI_STATUS_IDLE : Nat := 0
def SPI_STATUS_IN_PROGRESS : Nat := 1
def SPI_STATUS_FINISHED : Nat := 2
def SPI_SLAVE_1 : Nat := 0
def SPI_SLAVE_2 : Nat := 1

/-- Driver-owned globals of `mySPI.c` together with the SPI-A hardware state the
driver reads or writes.  `txffst` is the fill level `SPIFFTX.bit.TXFFST` of the
transmit FIFO; the receive FIFO is a list, oldest first, whose length is
`SPIFFRX.bit.RXFFST`.  `rxHist` is a ghost variable: the sequence of all bytes
that ever entered the receive FIFO, in arrival order. -/
structure SpiState where
  /-- `spiBufferTxA[]`, 50 elements -/
  bufferTx : List Nat
  /-- `spiBufferRxA[]`, 50 elements -/
  bufferRx : List Nat
  /-- `spiBufferIndexTxA` -/
  bufferIndexTx : Nat
  /-- `spiBufferIndexRxA` -/
  bufferIndexRx : Nat
  /-- `spiBytesToTransferA` -/
  bytesToTransfer : Nat
  /-- `spiStatusFlagA` -/
  statusFlag : Nat
  /-- `SpiaRegs.SPIFFTX.bit.TXFFST`: number of words in the transmit FIFO -/
  txffst : Nat
  /-- hardware receive FIFO contents (`SPIRXBUF` pops the head);
      `SPIFFRX.bit.RXFFST` is its length -/
  rxFifo : List Nat
  /-- `SpiaRegs.SPIFFRX.bit.RXFFIL` (receive threshold) -/
  rxffil : Nat
  /-- `SpiaRegs.SPIFFRX.bit.RXFFIENA` -/
  rxffiena : Bool
  /-- slave-select line of slave 1 (GPIO 58, active low) is asserted -/
  slave1Enabled : Bool
  /-- slave-select line of slave 2 (GPIO 59, active low) is asserted -/
  slave2Enabled : Bool
  /-- ghost: every byte ever shifted into the receive FIFO, oldest first -/
  rxHist : List Nat
  deriving DecidableEq

/-- The `while`-loop of `SpiSendDataA` (mySPI.c, lines 314-323) and of the else
branch of `SpiISRA` (lines 395-404): push words from the software transmit
buffer into the hardware transmit FIFO while the byte count is not reached and
the FIFO has room.  Only the counters matter for the modelled state: each
iteration advances `spiBufferIndexTxA` and grows `TXFFST` by one. -/
def fillLoop (bufferIndexTx bytesToTransfer txffst : Nat) : Nat × Nat :=
  if bufferIndexTx < bytesToTransfer ∧ txffst < SPI_SIZE_HARDWARE_FIFO then
    fillLoop (bufferIndexTx + 1) bytesToTransfer (txffst + 1)
  else
    (bufferIndexTx, txffst)
termination_by bytesToTransfer - bufferIndexTx
decreasing_by omega

/-- The `while`-loop of `SpiISRA` (mySPI.c, lines 369-374): copy words from the
receive FIFO into `spiBufferRxA` while the byte count is not reached and the
FIFO is non-empty.  Returns the new software buffer, the new receive index and
the remaining FIFO content. -/
def drainLoop : List Nat → Nat → Nat → List Nat → List Nat × Nat × List Nat
  | bufferRx, bufferIndexRx, _, [] => (bufferRx, bufferIndexRx, [])
  | bufferRx, bufferIndexRx, bytesToTransfer, b :: rest =>
    if bufferIndexRx < bytesToTransfer then
      drainLoop (bufferRx.set bufferIndexRx b) (bufferIndexRx + 1) bytesToTransfer rest
    else
      (bufferRx, bufferIndexRx, b :: rest)

/-- `SpiInitA` (mySPI.c, lines 57-168), restricted to the modelled state: the
transmit FIFO is reset, the receive interrupt is disabled and the control
variables and software buffers are initialized (lines 133-141 and 161-167). -/
def SpiInitA (s : SpiState) : SpiState :=
  { s with
    txffst := 0
    rxffiena := false
    bufferTx := List.replicate SPI_SIZE_SOFTWARE_BUFFER 0
    bufferRx := List.replicate SPI_SIZE_SOFTWARE_BUFFER 0
    bufferIndexTx := 0
    bufferIndexRx := 0
    bytesToTransfer := 0
    statusFlag := SPI_STATUS_IDLE }

/-- `SpiGetStatusA` (mySPI.c, lines 226-229). -/
def SpiGetStatusA (s : SpiState) : Nat :=
  s.statusFlag

/-- `SpiSetStatusIdleA` (mySPI.c, lines 243-254): the flag is set to idle only
if the previous communication has finished. -/
def SpiSetStatusIdleA (s : SpiState) : Bool × SpiState :=
  if s.statusFlag = SPI_STATUS_FINISHED then
    (true, { s with statusFlag := SPI_STATUS_IDLE })
  else
    (false, s)

/-- The guard of `SpiSendDataA` (mySPI.c, lines 278-280): no communication in
progress and byte count in [1,50]. -/
def spiSendPre (s : SpiState) (numberOfBytes : Nat) : Prop :=
  s.statusFlag ≠ SPI_STATUS_IN_PROGRESS ∧
    numberOfBytes ≤ SPI_SIZE_SOFTWARE_BUFFER ∧ numberOfBytes ≠ 0

instance (s : SpiState) (n : Nat) : Decidable (spiSendPre s n) := by
  unfold spiSendPre; infer_instance

/-- `SpiSendDataA` (mySPI.c, lines 270-336), translated faithfully: the local
`operationPerformed` is initialized to `false` (line 274) and — as in the C
source — never assigned again, so the function returns `false` on every path. -/
def SpiSendDataA (s : SpiState) (slave numberOfBytes : Nat) : Bool × SpiState :=
  let operationPerformed := false
  if spiSendPre s numberOfBytes then
    -- Slave auswaehlen
    let s1 :=
      if slave = SPI_SLAVE_1 then
        { s with slave2Enabled := false, slave1Enabled := true }
      else if slave = SPI_SLAVE_2 then
        { s with slave1Enabled := false, slave2Enabled := true }
      else s
    -- Flag, Steuervariable und Puffer-Indexe setzen
    let s2 := { s1 with
      statusFlag := SPI_STATUS_IN_PROGRESS
      bytesToTransfer := numberOfBytes
      bufferIndexTx := 0
      bufferIndexRx := 0 }
    -- Sende-FIFO aus dem Software-Puffer fuellen
    let p := fillLoop s2.bufferIndexTx s2.bytesToTransfer s2.txffst
    let s3 := { s2 with bufferIndexTx := p.1, txffst := p.2 }
    -- RXFFIL = min(numberOfBytes, FIFO-Groesse), RX-Interrupt einschalten
    let ffil :=
      if s3.bytesToTransfer > SPI_SIZE_HARDWARE_FIFO then SPI_SIZE_HARDWARE_FIFO
      else s3.bytesToTransfer
    (operationPerformed, { s3 with rxffil := ffil, rxffiena := true })
  else
    (operationPerformed, s)

/-- `SpiISRA` (mySPI.c, lines 356-419): drain the receive FIFO; if the full byte
count has been received, disable the receive interrupt, deselect the slaves and
set the flag to finished; otherwise refill the transmit FIFO and reprogram the
receive threshold to `min(remaining, FIFO size)`. -/
def SpiISRA (s : SpiState) : SpiState :=
  let d := drainLoop s.bufferRx s.bufferIndexRx s.bytesToTransfer s.rxFifo
  let s1 := { s with bufferRx := d.1, bufferIndexRx := d.2.1, rxFifo := d.2.2 }
  if s1.bufferIndexRx = s1.bytesToTransfer then
    { s1 with
      rxffiena := false
      slave1Enabled := false
      slave2Enabled := false
      statusFlag := SPI_STATUS_FINISHED }
  else
    let p := fillLoop s1.bufferIndexTx s1.bytesToTransfer s1.txffst
    let s2 := { s1 with bufferIndexTx := p.1, txffst := p.2 }
    let ffil :=
      if s2.bytesToTransfer - s2.bufferIndexRx > SPI_SIZE_HARDWARE_FIFO then
        SPI_SIZE_HARDWARE_FIFO
      else s2.bytesToTransfer - s2.bufferIndexRx
    { s2 with rxffil := ffil }

/-- Hardware environment step (the SPI peripheral is an external collaborator):
a full-duplex shift moves one word out of the transmit FIFO and pushes the byte
`b` answered by the slave into the receive FIFO.  It can happen only while the
transmit FIFO is non-empty and the receive FIFO is not full. -/
def spiClock (s : SpiState) (b : Nat) : SpiState :=
  if s.txffst ≠ 0 ∧ s.rxFifo.length < SPI_SIZE_HARDWARE_FIFO then
    { s with
      txffst := s.txffst - 1
      rxFifo := s.rxFifo ++ [b]
      rxHist := s.rxHist ++ [b] }
  else s

/-- During a transfer the system evolves by hardware shifts and invocations of
the completion handler. -/
inductive SpiStep where
  | clock (b : Nat)
  | isr
  deriving DecidableEq

def spiStepRun (s : SpiState) : SpiStep → SpiState
  | .clock b => spiClock s b
  | .isr => SpiISRA s

def spiRun (s : SpiState) : List SpiStep → SpiState
  | [] => s
  | st :: rest => spiRun (spiStepRun s st) rest

/-- Foreground-level operations on the SPI channel (plus the hardware shift), for
reachability over arbitrary call sequences. -/
inductive SpiOp where
  | initA
  | sendData (slave numberOfBytes : Nat)
  | isr
  | setStatusIdle
  | clock (b : Nat)
  deriving DecidableEq

def spiOpRun (s : SpiState) : SpiOp → SpiState
  | .initA => SpiInitA s
  | .sendData slave n => (SpiSendDataA s slave n).2
  | .isr => SpiISRA s
  | .setStatusIdle => (SpiSetStatusIdleA s).2
  | .clock b => spiClock s b

def spiOpsRun (s : SpiState) : List SpiOp → SpiState
  | [] => s
  | op :: rest => spiOpsRun (spiOpRun s op) rest

/-- The SPI channel state right after `SpiInitA`, with the caller having filled
the software transmit buffer with `tx` (the remaining fields as `SpiInitA`
leaves them, receive FIFO empty, no slave selected). -/
def spiIdleState (tx : List Nat) : SpiState :=
  { bufferTx := tx
    bufferRx := List.replicate SPI_SIZE_SOFTWARE_BUFFER 0
    bufferIndexTx := 0
    bufferIndexRx := 0
    bytesToTransfer := 0
    statusFlag := SPI_STATUS_IDLE
    txffst := 0
    rxFifo := []
    rxffil := 0
    rxffiena := false
    slave1Enabled := false
    slave2Enabled := false
    rxHist := [] }

/-- The state after a successful `SpiSendDataA(SPI_SLAVE_1, N)` from the idle
state: the armed transfer. -/
def spiArmed (N : Nat) (tx : List Nat) : SpiState :=
  (SpiSendDataA (spiIdleState tx) SPI_SLAVE_1 N).2

/-! ## Closed forms for the FIFO loops -/

theorem fillLoop_spec_aux (fuel : Nat) : ∀ i t c, t - i ≤ fuel →
    fillLoop i t c = (i + min (t - i) (SPI_SIZE_HARDWARE_FIFO - c),
                      c + min (t - i) (SPI_SIZE_HARDWARE_FIFO - c)) := by
  induction fuel with
  | zero =>
      intro i t c h
      unfold fillLoop
      have ht : ¬ (i < t ∧ c < SPI_SIZE_HARDWARE_FIFO) := by omega
      rw [if_neg ht]
      have h0 : t - i = 0 := by omega
      simp [h0]
  | succ fuel ih =>
      intro i t c h
      unfold fillLoop
      by_cases hg : i < t ∧ c < SPI_SIZE_HARDWARE_FIFO
      · rw [if_pos hg]
        rw [ih (i + 1) t (c + 1) (by omega)]
        have h1 : i + 1 + min (t - (i + 1)) (SPI_SIZE_HARDWARE_FIFO - (c + 1))
            = i + min (t - i) (SPI_SIZE_HARDWARE_FIFO - c) := by omega
        have h2 : c + 1 + min (t - (i + 1)) (SPI_SIZE_HARDWARE_FIFO - (c + 1))
            = c + min (t - i) (SPI_SIZE_HARDWARE_FIFO - c) := by omega
        rw [h1, h2]
      · rw [if_neg hg]
        have h0 : min (t - i) (SPI_SIZE_HARDWARE_FIFO - c) = 0 := by omega
        simp [h0]

theorem fillLoop_spec (i t c : Nat) :
    fillLoop i t c = (i + min (t - i) (SPI_SIZE_HARDWARE_FIFO - c),
                      c + min (t - i) (SPI_SIZE_HARDWARE_FIFO - c)) :=
  fillLoop_spec_aux (t - i) i t c le_rfl

theorem drainLoop_spec : ∀ (q : List Nat) (buf : List Nat) (i t : Nat),
    drainLoop buf i t q =
      (writeSeq buf i (q.take (t - i)),
       i + min (t - i) q.length,
       q.drop (min (t - i) q.length)) := by
  intro q
  induction q with
  | nil =>
      intro buf i t
      simp [drainLoop, writeSeq]
  | cons b rest ih =>
      intro buf i t
      by_cases h : i < t
      · have hpos : t - i = (t - (i + 1)) + 1 := by omega
        simp only [drainLoop, h, if_true, ih, List.length_cons]
        rw [hpos]
        have hmin : ((t - (i + 1)) + 1) ⊓ (rest.length + 1)
            = (t - (i + 1)) ⊓ rest.length + 1 := by omega
        rw [hmin, List.take_succ_cons, List.drop_succ_cons]
        simp only [Prod.mk.injEq]
        refine ⟨rfl, by omega, trivial⟩
      · have ht : t - i = 0 := by omega
        simp [drainLoop, h, ht, writeSeq]

/-! Properties of `writeSeq`. -/

theorem take_set_of_index_ge (b : Nat) :
    ∀ (buf : List Nat) (i j : Nat), j ≤ i → (buf.set i b).take j = buf.take j := by
  intro buf
  induction buf with
  | nil => intro i j _; simp
  | cons x xs ih =>
      intro i j hj
      cases j with
      | zero => simp
      | succ j =>
          cases i with
          | zero => omega
          | succ i =>
              simp only [List.set_cons_succ, List.take_succ_cons]
              rw [ih i j (by omega)]

theorem take_succ_set (b : Nat) :
    ∀ (buf : List Nat) (i : Nat), i < buf.length →
    (buf.set i b).take (i + 1) = buf.take i ++ [b] := by
  intro buf
  induction buf with
  | nil => intro i h; simp at h
  | cons x xs ih =>
      intro i h
      cases i with
      | zero => simp
      | succ i =>
          simp only [List.set_cons_succ, List.take_succ_cons]
          rw [ih i (by simp at h; omega)]
          simp

theorem writeSeq_take_left : ∀ (xs : List Nat) (buf : List Nat) (i j : Nat), j ≤ i →
    (writeSeq buf i xs).take j = buf.take j := by
  intro xs
  induction xs with
  | nil => intro buf i j _; rfl
  | cons b bs ih =>
      intro buf i j hj
      simp only [writeSeq]
      rw [ih (buf.set i b) (i + 1) j (by omega)]
      exact take_set_of_index_ge b buf i j hj

theorem writeSeq_take_all : ∀ (xs : List Nat) (buf : List Nat) (i : Nat),
    i + xs.length ≤ buf.length →
    (writeSeq buf i xs).take (i + xs.length) = buf.take i ++ xs := by
  intro xs
  induction xs with
  | nil => intro buf i h; simp [writeSeq]
  | cons b bs ih =>
      intro buf i h
      simp only [List.length_cons] at h
      simp only [writeSeq, List.length_cons]
      have h1 : i + (bs.length + 1) = (i + 1) + bs.length := by omega
      rw [h1, ih (buf.set i b) (i + 1) (by simp only [List.length_set]; omega)]
      rw [take_succ_set b buf i (by omega)]
      simp

/-! ## The SPI transfer invariant

State relations that hold while a transfer armed by `SpiSendDataA` is serviced
by hardware shifts and `SpiISRA` invocations. -/

def SpiInv (s : SpiState) : Prop :=
  s.bufferRx.length = SPI_SIZE_SOFTWARE_BUFFER ∧
  s.bytesToTransfer ≤ SPI_SIZE_SOFTWARE_BUFFER ∧
  s.bufferIndexTx ≤ s.bytesToTransfer ∧
  s.bufferIndexRx ≤ s.bytesToTransfer ∧
  s.rxHist.length + s.txffst = s.bufferIndexTx ∧
  s.bufferIndexRx ≤ s.rxHist.length ∧
  s.rxFifo = s.rxHist.drop s.bufferIndexRx ∧
  s.bufferRx.take s.bufferIndexRx = s.rxHist.take s.bufferIndexRx ∧
  s.txffst ≤ SPI_SIZE_HARDWARE_FIFO ∧
  (s.statusFlag = SPI_STATUS_FINISHED → s.bufferIndexRx = s.bytesToTransfer) ∧
  (s.statusFlag = SPI_STATUS_IN_PROGRESS ∨ s.statusFlag = SPI_STATUS_FINISHED)

theorem spiInv_clock (s : SpiState) (b : Nat) (h : SpiInv s) : SpiInv (spiClock s b) := by
  obtain ⟨h1, h2, h3, h4, h5, h6, h7, h8, h9, h10, h11⟩ := h
  unfold spiClock
  by_cases hg : s.txffst ≠ 0 ∧ s.rxFifo.length < SPI_SIZE_HARDWARE_FIFO
  · rw [if_pos hg]
    obtain ⟨hg1, hg2⟩ := hg
    refine ⟨h1, h2, h3, h4, ?_, ?_, ?_, ?_, ?_, h10, h11⟩
    · simp only [List.length_append, List.length_singleton]
      omega
    · simp only [List.length_append, List.length_singleton]
      omega
    · show s.rxFifo ++ [b] = (s.rxHist ++ [b]).drop s.bufferIndexRx
      rw [List.drop_append_eq_append_drop, Nat.sub_eq_zero_of_le h6, h7]
      simp
    · show s.bufferRx.take s.bufferIndexRx = (s.rxHist ++ [b]).take s.bufferIndexRx
      rw [List.take_append_eq_append_take, Nat.sub_eq_zero_of_le h6, h8]
      simp
    · show s.txffst - 1 ≤ SPI_SIZE_HARDWARE_FIFO
      omega
  · rw [if_neg hg]
    exact ⟨h1, h2, h3, h4, h5, h6, h7, h8, h9, h10, h11⟩

theorem spiInv_isr (s : SpiState) (h : SpiInv s) : SpiInv (SpiISRA s) := by
  obtain ⟨h1, h2, h3, h4, h5, h6, h7, h8, h9, h10, h11⟩ := h
  have hq : s.rxFifo.length = s.rxHist.length - s.bufferIndexRx := by
    rw [h7, List.length_drop]
  have hbuf50 : s.bytesToTransfer ≤ s.bufferRx.length := by rw [h1]; exact h2
  -- abbreviations for the drained quantities
  have hkr : min (s.bytesToTransfer - s.bufferIndexRx) s.rxFifo.length
      ≤ s.bytesToTransfer - s.bufferIndexRx := min_le_left _ _
  have hkq : min (s.bytesToTransfer - s.bufferIndexRx) s.rxFifo.length
      ≤ s.rxFifo.length := min_le_right _ _
  have htake : s.rxFifo.take (s.bytesToTransfer - s.bufferIndexRx)
      = s.rxFifo.take (min (s.bytesToTransfer - s.bufferIndexRx) s.rxFifo.length) := by
    rcases le_or_lt (s.bytesToTransfer - s.bufferIndexRx) s.rxFifo.length with hle | hlt
    · rw [min_eq_left hle]
    · rw [List.take_of_length_le (by omega), min_eq_right (by omega),
        List.take_of_length_le le_rfl]
  have hlen_take : (s.rxFifo.take (s.bytesToTransfer - s.bufferIndexRx)).length
      = min (s.bytesToTransfer - s.bufferIndexRx) s.rxFifo.length := by
    rw [List.length_take]
  -- the prefix relation after the drain
  have hprefix : (writeSeq s.bufferRx s.bufferIndexRx
        (s.rxFifo.take (s.bytesToTransfer - s.bufferIndexRx))).take
        (s.bufferIndexRx + min (s.bytesToTransfer - s.bufferIndexRx) s.rxFifo.length)
      = s.rxHist.take
        (s.bufferIndexRx + min (s.bytesToTransfer - s.bufferIndexRx) s.rxFifo.length) := by
    have hwlen : s.bufferIndexRx
        + (s.rxFifo.take (s.bytesToTransfer - s.bufferIndexRx)).length
        ≤ s.bufferRx.length := by
      rw [hlen_take]; omega
    calc (writeSeq s.bufferRx s.bufferIndexRx
            (s.rxFifo.take (s.bytesToTransfer - s.bufferIndexRx))).take
            (s.bufferIndexRx + min (s.bytesToTransfer - s.bufferIndexRx) s.rxFifo.length)
        = (writeSeq s.bufferRx s.bufferIndexRx
            (s.rxFifo.take (s.bytesToTransfer - s.bufferIndexRx))).take
            (s.bufferIndexRx
              + (s.rxFifo.take (s.bytesToTransfer - s.bufferIndexRx)).length) := by
          rw [hlen_take]
      _ = s.bufferRx.take s.bufferIndexRx
            ++ s.rxFifo.take (s.bytesToTransfer - s.bufferIndexRx) :=
          writeSeq_take_all _ _ _ hwlen
      _ = s.rxHist.take s.bufferIndexRx
            ++ (s.rxHist.drop s.bufferIndexRx).take
                (min (s.bytesToTransfer - s.bufferIndexRx) s.rxFifo.length) := by
          rw [h8, htake, h7]
      _ = s.rxHist.take
            (s.bufferIndexRx + min (s.bytesToTransfer - s.bufferIndexRx) s.rxFifo.length) :=
          (List.take_add _ _ _).symm
  have hdrop : (s.rxFifo.drop (min (s.bytesToTransfer - s.bufferIndexRx) s.rxFifo.length))
      = s.rxHist.drop
        (s.bufferIndexRx + min (s.bytesToTransfer - s.bufferIndexRx) s.rxFifo.length) := by
    rw [h7, List.drop_drop, Nat.add_comm]
  have hwritelen : (writeSeq s.bufferRx s.bufferIndexRx
      (s.rxFifo.take (s.bytesToTransfer - s.bufferIndexRx))).length
      = s.bufferRx.length := writeSeq_length _ _ _
  unfold SpiISRA
  rw [drainLoop_spec]
  dsimp only
  by_cases hfin : s.bufferIndexRx + min (s.bytesToTransfer - s.bufferIndexRx) s.rxFifo.length
      = s.bytesToTransfer
  · rw [if_pos hfin]
    unfold SpiInv
    dsimp only
    refine ⟨?_, h2, h3, ?_, h5, ?_, ?_, ?_, h9, ?_, ?_⟩
    · show (writeSeq _ _ _).length = SPI_SIZE_SOFTWARE_BUFFER
      rw [hwritelen, h1]
    · omega
    · omega
    · exact hdrop
    · exact hprefix
    · intro _; exact hfin
    · right; rfl
  · rw [if_neg hfin]
    rw [fillLoop_spec]
    unfold SpiInv
    dsimp only
    refine ⟨?_, h2, ?_, ?_, ?_, ?_, ?_, ?_, ?_, ?_, h11⟩
    · show (writeSeq _ _ _).length = SPI_SIZE_SOFTWARE_BUFFER
      rw [hwritelen, h1]
    · show s.bufferIndexTx + _ ≤ s.bytesToTransfer
      omega
    · omega
    · show s.rxHist.length + (s.txffst + _) = s.bufferIndexTx + _
      omega
    · omega
    · exact hdrop
    · exact hprefix
    · show s.txffst + _ ≤ SPI_SIZE_HARDWARE_FIFO
      omega
    · intro hF
      have hx := h10 hF
      omega

theorem spiArmed_eq (N : Nat) (tx : List Nat) (hN2 : N ≤ SPI_SIZE_SOFTWARE_BUFFER)
    (hN1 : N ≠ 0) :
    spiArmed N tx =
      { bufferTx := tx
        bufferRx := List.replicate SPI_SIZE_SOFTWARE_BUFFER 0
        bufferIndexTx := min N SPI_SIZE_HARDWARE_FIFO
        bufferIndexRx := 0
        bytesToTransfer := N
        statusFlag := SPI_STATUS_IN_PROGRESS
        txffst := min N SPI_SIZE_HARDWARE_FIFO
        rxFifo := []
        rxffil := min N SPI_SIZE_HARDWARE_FIFO
        rxffiena := true
        slave1Enabled := true
        slave2Enabled := false
        rxHist := [] } := by
  have hpre : spiSendPre (spiIdleState tx) N := by
    refine ⟨?_, hN2, hN1⟩
    simp [spiIdleState, SPI_STATUS_IDLE, SPI_STATUS_IN_PROGRESS]
  unfold spiArmed SpiSendDataA
  rw [if_pos hpre]
  dsimp only
  rw [if_pos rfl]
  rw [fillLoop_spec]
  dsimp only
  unfold spiIdleState
  simp only [SpiState.mk.injEq]
  repeat' apply And.intro
  all_goals first
    | trivial
    | omega
    | (unfold SPI_SIZE_HARDWARE_FIFO; split <;> omega)

theorem spiInv_armed (N : Nat) (tx : List Nat) (hN2 : N ≤ SPI_SIZE_SOFTWARE_BUFFER)
    (hN1 : N ≠ 0) : SpiInv (spiArmed N tx) := by
  rw [spiArmed_eq N tx hN2 hN1]
  unfold SpiInv SPI_SIZE_SOFTWARE_BUFFER SPI_SIZE_HARDWARE_FIFO
      SPI_STATUS_IN_PROGRESS SPI_STATUS_FINISHED at *
  dsimp only
  refine ⟨by simp, by omega, by omega, by omega, by simp, by simp, rfl, rfl,
    by omega, by omega, by omega⟩

theorem spiInv_step (s : SpiState) (st : SpiStep) (h : SpiInv s) : SpiInv (spiStepRun s st) := by
  cases st with
  | clock b => exact spiInv_clock s b h
  | isr => exact spiInv_isr s h

theorem spiInv_run (steps : List SpiStep) : ∀ (s : SpiState), SpiInv s →
    SpiInv (spiRun s steps) := by
  induction steps with
  | nil => intro s h; exact h
  | cons st rest ih => intro s h; exact ih _ (spiInv_step s st h)

theorem spiStep_total (s : SpiState) (st : SpiStep) :
    (spiStepRun s st).bytesToTransfer = s.bytesToTransfer := by
  cases st with
  | clock b =>
      unfold spiStepRun spiClock
      dsimp only
      by_cases hg : s.txffst ≠ 0 ∧ s.rxFifo.length < SPI_SIZE_HARDWARE_FIFO
      · rw [if_pos hg]
      · rw [if_neg hg]
  | isr =>
      unfold spiStepRun SpiISRA
      rw [drainLoop_spec]
      dsimp only
      split <;> rfl

theorem spiRun_total (steps : List SpiStep) : ∀ (s : SpiState),
    (spiRun s steps).bytesToTransfer = s.bytesToTransfer := by
  induction steps with
  | nil => intro s; rfl
  | cons st rest ih =>
      intro s
      show (spiRun (spiStepRun s st) rest).bytesToTransfer = _
      rw [ih, spiStep_total]

/-- When the receive index has already reached the byte count, an invocation of
the handler finishes the transfer without touching index or history. -/
theorem spiISR_at_total (s : SpiState) (h : s.bufferIndexRx = s.bytesToTransfer) :
    (SpiISRA s).statusFlag = SPI_STATUS_FINISHED ∧
    (SpiISRA s).bufferIndexRx = s.bufferIndexRx ∧
    (SpiISRA s).rxHist = s.rxHist ∧
    (SpiISRA s).bytesToTransfer = s.bytesToTransfer := by
  unfold SpiISRA
  rw [drainLoop_spec]
  dsimp only
  have hr : s.bytesToTransfer - s.bufferIndexRx = 0 := by omega
  rw [if_pos (by omega : s.bufferIndexRx
    + min (s.bytesToTransfer - s.bufferIndexRx) s.rxFifo.length = s.bytesToTransfer)]
  refine ⟨rfl, by dsimp only; omega, rfl, rfl⟩

/-- An unfinished handler invocation reprograms the receive threshold to
`min(remaining bytes, hardware FIFO size)`. -/
theorem spiISR_threshold (s : SpiState)
    (hne : (SpiISRA s).statusFlag ≠ SPI_STATUS_FINISHED) :
    (SpiISRA s).rxffil
      = min (s.bytesToTransfer - (SpiISRA s).bufferIndexRx) SPI_SIZE_HARDWARE_FIFO := by
  unfold SpiISRA at *
  rw [drainLoop_spec] at *
  dsimp only at *
  by_cases hfin : s.bufferIndexRx + min (s.bytesToTransfer - s.bufferIndexRx) s.rxFifo.length
      = s.bytesToTransfer
  · rw [if_pos hfin] at hne
    exact absurd rfl hne
  · rw [if_neg hfin] at *
    rw [fillLoop_spec]
    dsimp only
    unfold SPI_SIZE_HARDWARE_FIFO
    split <;> omega

/-- Synchronized states: all clocked bytes drained, receive FIFO empty, transfer
still in progress, and (while bytes remain) the transmit side strictly ahead. -/
def SpiSync (s : SpiState) : Prop :=
  SpiInv s ∧ s.rxFifo = [] ∧ s.rxHist.length = s.bufferIndexRx ∧
  s.statusFlag = SPI_STATUS_IN_PROGRESS ∧
  (s.bufferIndexRx < s.bytesToTransfer → s.bufferIndexRx < s.bufferIndexTx)

/-- One hardware shift followed by one handler invocation, from a synchronized
state with bytes remaining: the receive index advances by exactly one and the
byte `b` is appended to the history; the transfer finishes exactly when the new
index reaches the byte count, and otherwise the state is synchronized again. -/
theorem spiPair_step (s : SpiState) (b : Nat)
    (hSy : SpiSync s) (hlt : s.bufferIndexRx < s.bytesToTransfer) :
    (SpiISRA (spiClock s b)).bufferIndexRx = s.bufferIndexRx + 1 ∧
    (SpiISRA (spiClock s b)).rxFifo = [] ∧
    (SpiISRA (spiClock s b)).rxHist = s.rxHist ++ [b] ∧
    (SpiISRA (spiClock s b)).bytesToTransfer = s.bytesToTransfer ∧
    (s.bufferIndexRx + 1 = s.bytesToTransfer →
      (SpiISRA (spiClock s b)).statusFlag = SPI_STATUS_FINISHED) ∧
    (s.bufferIndexRx + 1 ≠ s.bytesToTransfer →
      (SpiISRA (spiClock s b)).statusFlag = SPI_STATUS_IN_PROGRESS ∧
      (SpiISRA (spiClock s b)).bufferIndexRx < (SpiISRA (spiClock s b)).bufferIndexTx) := by
  obtain ⟨hInv, hq, hlen, hst, hahead⟩ := hSy
  obtain ⟨h1, h2, h3, h4, h5, h6, h7, h8, h9, h10, h11⟩ := hInv
  have htx : s.txffst ≠ 0 := by
    have := hahead hlt
    omega
  have hclock : spiClock s b =
      { s with txffst := s.txffst - 1, rxFifo := s.rxFifo ++ [b],
               rxHist := s.rxHist ++ [b] } := by
    unfold spiClock
    rw [if_pos ⟨htx, by rw [hq]; simp [SPI_SIZE_HARDWARE_FIFO]⟩]
  rw [hclock, hq]
  unfold SpiISRA
  rw [drainLoop_spec]
  dsimp only
  have hr : s.bytesToTransfer - s.bufferIndexRx ≠ 0 := by omega
  have hmin1 : min (s.bytesToTransfer - s.bufferIndexRx) ([] ++ [b] : List Nat).length = 1 := by
    simp only [List.nil_append, List.length_singleton]
    omega
  rw [hmin1]
  by_cases hfin : s.bufferIndexRx + 1 = s.bytesToTransfer
  · rw [if_pos hfin]
    refine ⟨rfl, ?_, rfl, rfl, fun _ => rfl, fun hne => absurd hfin hne⟩
    · show ([] ++ [b] : List Nat).drop 1 = []
      simp
  · rw [if_neg hfin]
    rw [fillLoop_spec]
    dsimp only
    refine ⟨rfl, ?_, rfl, rfl, fun hfa => absurd hfa hfin, fun _ => ⟨hst ▸ rfl, ?_⟩⟩
    · show ([] ++ [b] : List Nat).drop 1 = []
      simp
    · -- the transmit index stays strictly ahead of the new receive index
      have hta := hahead hlt
      unfold SPI_SIZE_HARDWARE_FIFO
      omega

/-- From a synchronized state whose history is the stream prefix already
consumed, repeated hardware shifts and handler invocations finish the transfer
with the full stream prefix received. -/
theorem spiSync_progress (stream : Nat → Nat) :
    ∀ (fuel : Nat) (s : SpiState), SpiSync s →
      s.rxHist = (List.range s.bufferIndexRx).map stream →
      s.bytesToTransfer - s.bufferIndexRx ≤ fuel →
      ∃ steps : List SpiStep,
        (spiRun s steps).statusFlag = SPI_STATUS_FINISHED ∧
        (spiRun s steps).bufferIndexRx = s.bytesToTransfer ∧
        (spiRun s steps).rxHist = (List.range s.bytesToTransfer).map stream := by
  intro fuel
  induction fuel with
  | zero =>
      intro s hSy hhist hfuel
      have hidx : s.bufferIndexRx = s.bytesToTransfer := by
        have h4 := hSy.1.2.2.2.1
        omega
      obtain ⟨ha, hb, hc, _⟩ := spiISR_at_total s hidx
      refine ⟨[SpiStep.isr], ha, ?_, ?_⟩
      · show (SpiISRA s).bufferIndexRx = _
        rw [hb, hidx]
      · show (SpiISRA s).rxHist = _
        rw [hc, hhist, hidx]
  | succ fuel ih =>
      intro s hSy hhist hfuel
      by_cases hidx : s.bufferIndexRx = s.bytesToTransfer
      · obtain ⟨ha, hb, hc, _⟩ := spiISR_at_total s hidx
        refine ⟨[SpiStep.isr], ha, ?_, ?_⟩
        · show (SpiISRA s).bufferIndexRx = _
          rw [hb, hidx]
        · show (SpiISRA s).rxHist = _
          rw [hc, hhist, hidx]
      · have hlt : s.bufferIndexRx < s.bytesToTransfer := by
          have h4 := hSy.1.2.2.2.1
          omega
        obtain ⟨p1, p2, p3, p4, p5, p6⟩ := spiPair_step s (stream s.bufferIndexRx) hSy hlt
        have hInv2 : SpiInv (SpiISRA (spiClock s (stream s.bufferIndexRx))) :=
          spiInv_isr _ (spiInv_clock _ _ hSy.1)
        have hhist2 : (SpiISRA (spiClock s (stream s.bufferIndexRx))).rxHist
            = (List.range (s.bufferIndexRx + 1)).map stream := by
          rw [p3, hhist, List.range_succ, List.map_append, List.map_singleton]
        by_cases hdone : s.bufferIndexRx + 1 = s.bytesToTransfer
        · refine ⟨[SpiStep.clock (stream s.bufferIndexRx), SpiStep.isr], p5 hdone, ?_, ?_⟩
          · show (SpiISRA (spiClock s (stream s.bufferIndexRx))).bufferIndexRx = _
            rw [p1, hdone]
          · show (SpiISRA (spiClock s (stream s.bufferIndexRx))).rxHist = _
            rw [hhist2, hdone]
        · obtain ⟨pst, ptx⟩ := p6 hdone
          have hSy2 : SpiSync (SpiISRA (spiClock s (stream s.bufferIndexRx))) := by
            refine ⟨hInv2, p2, ?_, pst, fun _ => ptx⟩
            rw [p3, List.length_append, List.length_singleton, p1]
            have hlen := hSy.2.2.1
            omega
          have hhist2i : (SpiISRA (spiClock s (stream s.bufferIndexRx))).rxHist
              = (List.range (SpiISRA (spiClock s (stream s.bufferIndexRx))).bufferIndexRx).map
                  stream := by
            rw [hhist2, p1]
          obtain ⟨steps, hstF, hidxF, hhistF⟩ :=
            ih (SpiISRA (spiClock s (stream s.bufferIndexRx))) hSy2 hhist2i (by rw [p4, p1]; omega)
          refine ⟨SpiStep.clock (stream s.bufferIndexRx) :: SpiStep.isr :: steps, ?_, ?_, ?_⟩
          · exact hstF
          · show (spiRun (SpiISRA (spiClock s (stream s.bufferIndexRx))) steps).bufferIndexRx = _
            rw [hidxF, p4]
          · show (spiRun (SpiISRA (spiClock s (stream s.bufferIndexRx))) steps).rxHist = _
            rw [hhistF, p4]

/-! ## Concrete states used in counterexamples and witnesses -/

/-- An idle I2C channel as `I2cInitA` leaves it: zeroed buffers, idle flag, all
status and mode bits clear, FIFOs empty. -/
def i2cIdleState : I2cState :=
  { bufferWrite := List.replicate I2C_SIZE_HARDWARE_FIFO 0
    bufferRead := List.replicate I2C_SIZE_HARDWARE_FIFO 0
    bytesToReadAfterRS := 0
    statusFlag := I2C_STATUS_IDLE
    bb := false
    scd := false
    nack := false
    ardy := false
    stp := false
    stt := false
    mst := false
    trx := false
    sar := 0
    cnt := 0
    txFifo := []
    rxFifo := []
    ierArdy := false }

/-- The channel after a successful `I2cWriteReadA(0x50, 2, 5)` from idle. -/
def i2cWriteReadArmed : I2cState := (I2cWriteReadA i2cIdleState 80 2 5).2

/-- The hardware then reports a NACK for the slave address: the start bit has
been consumed, and the NACK event raises both the NACK and the ARDY status bits
(the source comments at myI2C.c lines 504-511 state that ARDY is also set when
a NACK is received).  This is the state the interrupt handler runs on. -/
def i2cNackAtPivot : I2cState :=
  { i2cWriteReadArmed with stt := false, nack := true, ardy := true }

/-- An I2C channel whose transfer is in progress (second start must be refused). -/
def i2cBusyState : I2cState := { i2cIdleState with statusFlag := I2C_STATUS_IN_PROGRESS }

/-- An I2C channel after a failed transfer. -/
def i2cErrorState : I2cState := { i2cIdleState with statusFlag := I2C_STATUS_ERROR }

/-- An SPI channel whose transfer is in progress. -/
def spiBusyState : SpiState := { spiIdleState [] with statusFlag := SPI_STATUS_IN_PROGRESS }

/-- An SPI channel after a completed transfer. -/
def spiFinishedState : SpiState := { spiIdleState [] with statusFlag := SPI_STATUS_FINISHED }

/-! ## Claim theorems -/

/-- C1: the claim states that every start operation returns true iff its
preconditions held and the transfer was armed.  The code refutes this for
`SpiSendDataA`: the local `operationPerformed` is never set, so the function
returns false on **every** path — in particular on an input where all
preconditions hold and the transfer is armed (status flag becomes InProgress
and the receive interrupt is enabled). -/
theorem C1_spi_start_false_despite_armed :
    (∀ (s : SpiState) (slave numberOfBytes : Nat),
      (SpiSendDataA s slave numberOfBytes).1 = false) ∧
    spiSendPre (spiIdleState (List.replicate 50 0)) 1 ∧
    (SpiSendDataA (spiIdleState (List.replicate 50 0)) SPI_SLAVE_1 1).2.statusFlag
      = SPI_STATUS_IN_PROGRESS ∧
    (SpiSendDataA (spiIdleState (List.replicate 50 0)) SPI_SLAVE_1 1).2.rxffiena = true := by
  refine ⟨?_, ?_, ?_, ?_⟩
  · intro s slave numberOfBytes
    unfold SpiSendDataA
    dsimp only
    split <;> rfl
  · refine ⟨by decide, by decide, by decide⟩
  · show (spiArmed 1 (List.replicate 50 0)).statusFlag = SPI_STATUS_IN_PROGRESS
    rw [spiArmed_eq 1 _ (by decide) (by decide)]
  · show (spiArmed 1 (List.replicate 50 0)).rxffiena = true
    rw [spiArmed_eq 1 _ (by decide) (by decide)]

/-- C3: the claim states that on a NACK the handler stops the transfer and that
the write-then-read pivot is issued only when no NACK happened concurrently.
The code refutes the second half: the NACK branch clears the NACK status bit
before the pivot guard `ARDY && !NACK` is evaluated, so when NACK and ARDY are
raised together (invalid slave address during a write-then-read, the situation
the source comment at myI2C.c lines 504-511 describes) the pivot still fires:
the handler sets Error and a stop, but also reloads `I2CCNT` with the pending
read count and issues a repeated start, continuing the transfer. -/
theorem C3_i2c_nack_pivot_still_fires :
    i2cNackAtPivot.nack = true ∧
    (I2cISRA i2cNackAtPivot).statusFlag = I2C_STATUS_ERROR ∧
    (I2cISRA i2cNackAtPivot).stp = true ∧
    (I2cISRA i2cNackAtPivot).stt = true ∧
    (I2cISRA i2cNackAtPivot).cnt = 5 ∧
    (I2cISRA i2cNackAtPivot).ierArdy = false := by
  decide

/-- C4: a start call whose guard fails returns false and leaves the whole state
(status flag, both software buffers, cursors, every modelled hardware register)
unchanged — for all three I2C variants and for the SPI variant. -/
theorem C4_start_reject_frame :
    (∀ (s : I2cState) (a n : Nat), ¬ i2cStartPre s n → I2cWriteA s a n = (false, s)) ∧
    (∀ (s : I2cState) (a n : Nat), ¬ i2cStartPre s n → I2cReadA s a n = (false, s)) ∧
    (∀ (s : I2cState) (a nw nr : Nat), ¬ i2cWriteReadPre s nw nr →
      I2cWriteReadA s a nw nr = (false, s)) ∧
    (∀ (s : SpiState) (slave n : Nat), ¬ spiSendPre s n →
      SpiSendDataA s slave n = (false, s)) := by
  refine ⟨?_, ?_, ?_, ?_⟩
  · intro s a n h
    unfold I2cWriteA
    rw [if_neg h]
  · intro s a n h
    unfold I2cReadA
    rw [if_neg h]
  · intro s a nw nr h
    unfold I2cWriteReadA
    rw [if_neg h]
  · intro s slave n h
    unfold SpiSendDataA
    dsimp only
    rw [if_neg h]

theorem C4_start_reject_frame_witness :
    I2cWriteA i2cBusyState 80 3 = (false, i2cBusyState) ∧
    I2cWriteReadA i2cBusyState 80 2 5 = (false, i2cBusyState) ∧
    SpiSendDataA spiBusyState SPI_SLAVE_1 3 = (false, spiBusyState) :=
  ⟨C4_start_reject_frame.1 i2cBusyState 80 3 (by decide),
   C4_start_reject_frame.2.2.1 i2cBusyState 80 2 5 (by decide),
   C4_start_reject_frame.2.2.2 spiBusyState SPI_SLAVE_1 3 (by decide)⟩

/-- C5: a byte count of 0 or above the capacity (16 for I2C, 50 for SPI) makes
every start variant return false; for `I2cWriteReadA` this holds independently
for the write count and for the read count. -/
theorem C5_start_count_bounds :
    (∀ (s : I2cState) (a n : Nat), n = 0 ∨ n > I2C_SIZE_HARDWARE_FIFO →
      (I2cWriteA s a n).1 = false) ∧
    (∀ (s : I2cState) (a n : Nat), n = 0 ∨ n > I2C_SIZE_HARDWARE_FIFO →
      (I2cReadA s a n).1 = false) ∧
    (∀ (s : I2cState) (a nw nr : Nat), nw = 0 ∨ nw > I2C_SIZE_HARDWARE_FIFO →
      (I2cWriteReadA s a nw nr).1 = false) ∧
    (∀ (s : I2cState) (a nw nr : Nat), nr = 0 ∨ nr > I2C_SIZE_HARDWARE_FIFO →
      (I2cWriteReadA s a nw nr).1 = false) ∧
    (∀ (s : SpiState) (slave n : Nat), n = 0 ∨ n > SPI_SIZE_SOFTWARE_BUFFER →
      (SpiSendDataA s slave n).1 = false) := by
  refine ⟨?_, ?_, ?_, ?_, ?_⟩
  · intro s a n h
    unfold I2cWriteA
    rw [if_neg (by intro hp; obtain ⟨_, _, _, h4, h5⟩ := hp; omega)]
  · intro s a n h
    unfold I2cReadA
    rw [if_neg (by intro hp; obtain ⟨_, _, _, h4, h5⟩ := hp; omega)]
  · intro s a nw nr h
    unfold I2cWriteReadA
    rw [if_neg (by intro hp; obtain ⟨_, _, _, h4, h5, h6, h7⟩ := hp; omega)]
  · intro s a nw nr h
    unfold I2cWriteReadA
    rw [if_neg (by intro hp; obtain ⟨_, _, _, h4, h5, h6, h7⟩ := hp; omega)]
  · intro s slave n h
    unfold SpiSendDataA
    dsimp only
    split <;> rfl

theorem C5_start_count_bounds_witness :
    (I2cWriteA i2cIdleState 80 0).1 = false ∧
    (I2cReadA i2cIdleState 80 17).1 = false ∧
    (I2cWriteReadA i2cIdleState 80 0 5).1 = false ∧
    (I2cWriteReadA i2cIdleState 80 5 17).1 = false ∧
    (SpiSendDataA (spiIdleState []) SPI_SLAVE_1 51).1 = false :=
  ⟨C5_start_count_bounds.1 i2cIdleState 80 0 (Or.inl rfl),
   C5_start_count_bounds.2.1 i2cIdleState 80 17 (Or.inr (by decide)),
   C5_start_count_bounds.2.2.1 i2cIdleState 80 0 5 (Or.inl rfl),
   C5_start_count_bounds.2.2.2.1 i2cIdleState 80 5 17 (Or.inr (by decide)),
   C5_start_count_bounds.2.2.2.2 (spiIdleState []) SPI_SLAVE_1 51 (Or.inr (by decide))⟩

/-- C6 counterexample: the claim says the reset fails *exactly* when the state
is InProgress.  `SpiSetStatusIdleA` called on an Idle channel returns false
although the state is not InProgress. -/
theorem C6_spi_reset_fails_at_idle :
    (SpiSetStatusIdleA (spiIdleState [])).1 = false ∧
    (spiIdleState []).statusFlag ≠ SPI_STATUS_IN_PROGRESS := by
  decide

/-- C6 amended: `I2cSetStatusIdleA` succeeds exactly when the state is not
InProgress (so it fails exactly when it is), while `SpiSetStatusIdleA` succeeds
exactly when the state is Finished — it also fails on an Idle channel; in both
drivers a failed reset leaves the state unchanged and a successful one sets the
flag to Idle. -/
theorem C6_reset_to_idle_characterization :
    (∀ s : I2cState, (I2cSetStatusIdleA s).1 = true ↔ s.statusFlag ≠ I2C_STATUS_IN_PROGRESS) ∧
    (∀ s : I2cState, (I2cSetStatusIdleA s).1 = true →
      (I2cSetStatusIdleA s).2.statusFlag = I2C_STATUS_IDLE) ∧
    (∀ s : I2cState, (I2cSetStatusIdleA s).1 = false → (I2cSetStatusIdleA s).2 = s) ∧
    (∀ s : SpiState, (SpiSetStatusIdleA s).1 = true ↔ s.statusFlag = SPI_STATUS_FINISHED) ∧
    (∀ s : SpiState, (SpiSetStatusIdleA s).1 = true →
      (SpiSetStatusIdleA s).2.statusFlag = SPI_STATUS_IDLE) ∧
    (∀ s : SpiState, (SpiSetStatusIdleA s).1 = false → (SpiSetStatusIdleA s).2 = s) := by
  refine ⟨?_, ?_, ?_, ?_, ?_, ?_⟩ <;> intro s
  · unfold I2cSetStatusIdleA
    by_cases h : s.statusFlag ≠ I2C_STATUS_IN_PROGRESS
    · rw [if_pos h]; simpa using h
    · rw [if_neg h]; simpa using h
  · intro h
    unfold I2cSetStatusIdleA at *
    by_cases hs : s.statusFlag ≠ I2C_STATUS_IN_PROGRESS
    · rw [if_pos hs]
    · rw [if_neg hs] at h; exact absurd h (by simp)
  · intro h
    unfold I2cSetStatusIdleA at *
    by_cases hs : s.statusFlag ≠ I2C_STATUS_IN_PROGRESS
    · rw [if_pos hs] at h; exact absurd h (by simp)
    · rw [if_neg hs]
  · unfold SpiSetStatusIdleA
    by_cases h : s.statusFlag = SPI_STATUS_FINISHED
    · rw [if_pos h]; simpa using h
    · rw [if_neg h]; simpa using h
  · intro h
    unfold SpiSetStatusIdleA at *
    by_cases hs : s.statusFlag = SPI_STATUS_FINISHED
    · rw [if_pos hs]
    · rw [if_neg hs] at h; exact absurd h (by simp)
  · intro h
    unfold SpiSetStatusIdleA at *
    by_cases hs : s.statusFlag = SPI_STATUS_FINISHED
    · rw [if_pos hs] at h; exact absurd h (by simp)
    · rw [if_neg hs]

theorem C6_reset_to_idle_characterization_witness :
    (I2cSetStatusIdleA i2cErrorState).1 = true ∧
    (SpiSetStatusIdleA spiFinishedState).2.statusFlag = SPI_STATUS_IDLE :=
  ⟨(C6_reset_to_idle_characterization.1 i2cErrorState).mpr (by decide),
   C6_reset_to_idle_characterization.2.2.2.2.1 spiFinishedState
     ((C6_reset_to_idle_characterization.2.2.2.1 spiFinishedState).mpr (by decide))⟩

/-- C7: `I2cGetStatusA` reports InProgress whenever the software flag is
InProgress or the stop-pending hardware bit is set; when neither indicates
activity it returns the software flag. -/
theorem C7_i2c_status_consults_stop_pending (s : I2cState) :
    (s.statusFlag = I2C_STATUS_IN_PROGRESS ∨ s.stp = true →
      I2cGetStatusA s = I2C_STATUS_IN_PROGRESS) ∧
    (¬ (s.statusFlag = I2C_STATUS_IN_PROGRESS ∨ s.stp = true) →
      I2cGetStatusA s = s.statusFlag) := by
  unfold I2cGetStatusA
  by_cases h : s.stp
  · rw [if_pos h]
    exact ⟨fun _ => rfl, fun hn => absurd (Or.inr h) hn⟩
  · rw [if_neg h]
    constructor
    · intro hd
      rcases hd with hflag | hstp
      · exact hflag
      · exact absurd hstp (by simpa using h)
    · intro _
      rfl

theorem C7_i2c_status_consults_stop_pending_witness :
    I2cGetStatusA { i2cIdleState with stp := true } = I2C_STATUS_IN_PROGRESS ∧
    I2cGetStatusA i2cErrorState = I2C_STATUS_ERROR :=
  ⟨(C7_i2c_status_consults_stop_pending _).1 (Or.inr rfl),
   (C7_i2c_status_consults_stop_pending i2cErrorState).2 (by decide)⟩

/-- In the stop-condition branch the status flag becomes Finished only from
InProgress; any other value passes through unchanged. -/
theorem i2cISR_status_scd (s : I2cState) (hscd : s.scd = true) :
    (I2cISRA s).statusFlag =
      if s.statusFlag = I2C_STATUS_IN_PROGRESS then I2C_STATUS_FINISHED
      else s.statusFlag := by
  unfold I2cISRA
  rw [hscd, if_pos rfl]
  dsimp only
  by_cases htrx : s.trx = false
  · rw [if_pos htrx]
    dsimp only
    by_cases hst : s.statusFlag = I2C_STATUS_IN_PROGRESS
    · rw [if_pos hst, if_pos hst]
      dsimp only
      by_cases hp : s.ardy = true ∧ s.nack = false
      · rw [if_pos hp]
      · rw [if_neg hp]
    · rw [if_neg hst, if_neg hst]
      dsimp only
      by_cases hp : s.ardy = true ∧ s.nack = false
      · rw [if_pos hp]
      · rw [if_neg hp]
  · rw [if_neg htrx]
    dsimp only
    by_cases hst : s.statusFlag = I2C_STATUS_IN_PROGRESS
    · rw [if_pos hst, if_pos hst]
      dsimp only
      by_cases hp : s.ardy = true ∧ s.nack = false
      · rw [if_pos hp]
      · rw [if_neg hp]
    · rw [if_neg hst, if_neg hst]
      dsimp only
      by_cases hp : s.ardy = true ∧ s.nack = false
      · rw [if_pos hp]
      · rw [if_neg hp]

/-- C9: when the stop-condition event fires, the handler sets Finished only if
the flag was InProgress on entry; in particular a flag already set to Error by
an earlier NACK stays Error. -/
theorem C9_i2c_stop_branch_preserves_error (s : I2cState) (hscd : s.scd = true) :
    ((I2cISRA s).statusFlag = I2C_STATUS_FINISHED →
      s.statusFlag = I2C_STATUS_IN_PROGRESS ∨ s.statusFlag = I2C_STATUS_FINISHED) ∧
    (s.statusFlag = I2C_STATUS_ERROR → (I2cISRA s).statusFlag = I2C_STATUS_ERROR) := by
  have h := i2cISR_status_scd s hscd
  constructor
  · intro hFin
    rw [h] at hFin
    by_cases hst : s.statusFlag = I2C_STATUS_IN_PROGRESS
    · exact Or.inl hst
    · rw [if_neg hst] at hFin
      exact Or.inr hFin
  · intro hErr
    rw [h, hErr]
    rfl

theorem C9_i2c_stop_branch_preserves_error_witness :
    (I2cISRA { i2cErrorState with scd := true }).statusFlag = I2C_STATUS_ERROR :=
  (C9_i2c_stop_branch_preserves_error { i2cErrorState with scd := true } rfl).2 rfl

/-- C2: for an armed SPI transfer of `N` bytes (1 ≤ N ≤ 50, possibly exceeding
the 16-deep hardware FIFO): (a) along every run of hardware shifts and handler
invocations, the state is Finished only once the receive index equals `N`, and
the received prefix of `spiBufferRxA` always equals the byte history in arrival
order; (b) the start call programs the receive threshold to `min(N, 16)` and
every handler invocation that leaves the transfer unfinished reprograms it to
`min(remaining, 16)`; (c) for every byte stream the slave may deliver there is
a run after which the transfer is Finished with exactly the first `N` stream
bytes in `spiBufferRxA[0..N-1]`, in original order. -/
theorem C2_spi_drain_completeness (N : Nat) (tx : List Nat)
    (hN1 : 1 ≤ N) (hN2 : N ≤ SPI_SIZE_SOFTWARE_BUFFER) :
    (∀ steps : List SpiStep,
      ((spiRun (spiArmed N tx) steps).statusFlag = SPI_STATUS_FINISHED →
        (spiRun (spiArmed N tx) steps).bufferIndexRx = N) ∧
      (spiRun (spiArmed N tx) steps).bufferRx.take (spiRun (spiArmed N tx) steps).bufferIndexRx
        = (spiRun (spiArmed N tx) steps).rxHist.take
            (spiRun (spiArmed N tx) steps).bufferIndexRx) ∧
    (spiArmed N tx).rxffil = min N SPI_SIZE_HARDWARE_FIFO ∧
    (∀ steps : List SpiStep,
      (SpiISRA (spiRun (spiArmed N tx) steps)).statusFlag ≠ SPI_STATUS_FINISHED →
      (SpiISRA (spiRun (spiArmed N tx) steps)).rxffil
        = min (N - (SpiISRA (spiRun (spiArmed N tx) steps)).bufferIndexRx)
            SPI_SIZE_HARDWARE_FIFO) ∧
    (∀ stream : Nat → Nat, ∃ steps : List SpiStep,
      (spiRun (spiArmed N tx) steps).statusFlag = SPI_STATUS_FINISHED ∧
      (spiRun (spiArmed N tx) steps).bufferIndexRx = N ∧
      (spiRun (spiArmed N tx) steps).rxHist = (List.range N).map stream ∧
      (spiRun (spiArmed N tx) steps).bufferRx.take N = (List.range N).map stream) := by
  have hN0 : N ≠ 0 := by omega
  have hA := spiArmed_eq N tx hN2 hN0
  have hInvA : SpiInv (spiArmed N tx) := spiInv_armed N tx hN2 hN0
  have htot : ∀ steps : List SpiStep, (spiRun (spiArmed N tx) steps).bytesToTransfer = N := by
    intro steps
    rw [spiRun_total, hA]
  refine ⟨?_, ?_, ?_, ?_⟩
  · intro steps
    obtain ⟨_, _, _, _, _, _, _, h8, _, h10, _⟩ := spiInv_run steps _ hInvA
    refine ⟨fun hF => ?_, h8⟩
    have h := h10 hF
    rw [htot steps] at h
    exact h
  · rw [hA]
  · intro steps hne
    have h := spiISR_threshold (spiRun (spiArmed N tx) steps) hne
    rw [htot steps] at h
    exact h
  · intro stream
    have hSy : SpiSync (spiArmed N tx) := by
      refine ⟨hInvA, ?_, ?_, ?_, ?_⟩
      · rw [hA]
      · rw [hA]
        simp
      · rw [hA]
      · rw [hA]
        intro _
        show 0 < min N SPI_SIZE_HARDWARE_FIFO
        unfold SPI_SIZE_HARDWARE_FIFO
        omega
    have hhist0 : (spiArmed N tx).rxHist
        = (List.range (spiArmed N tx).bufferIndexRx).map stream := by
      rw [hA]
      simp
    obtain ⟨steps, hst, hidx, hhist⟩ :=
      spiSync_progress stream N (spiArmed N tx) hSy hhist0 (by rw [hA]; dsimp only; omega)
    have hidxN : (spiRun (spiArmed N tx) steps).bufferIndexRx = N := by
      rw [hidx, hA]
    have hhistN : (spiRun (spiArmed N tx) steps).rxHist = (List.range N).map stream := by
      rw [hhist, hA]
    refine ⟨steps, hst, hidxN, hhistN, ?_⟩
    obtain ⟨_, _, _, _, _, _, _, h8, _, _, _⟩ := spiInv_run steps _ hInvA
    rw [hidxN, hhistN] at h8
    rw [h8, List.take_of_length_le (by simp)]

theorem C2_spi_drain_completeness_witness :
    ∃ steps : List SpiStep,
      (spiRun (spiArmed 20 (List.replicate 50 0)) steps).statusFlag = SPI_STATUS_FINISHED ∧
      (spiRun (spiArmed 20 (List.replicate 50 0)) steps).bufferIndexRx = 20 ∧
      (spiRun (spiArmed 20 (List.replicate 50 0)) steps).rxHist
        = (List.range 20).map (fun i => i + 100) ∧
      (spiRun (spiArmed 20 (List.replicate 50 0)) steps).bufferRx.take 20
        = (List.range 20).map (fun i => i + 100) :=
  (C2_spi_drain_completeness 20 (List.replicate 50 0)
    (by decide) (by decide)).2.2.2 (fun i => i + 100)

/-- C8: during an armed transfer the cursor invariant holds after the start
call and after every handler invocation: read index ≤ write index ≤ total byte
count (so both lie in `[0, spiBytesToTransferA]`); moreover the write index can
advance in a handler invocation only if the transmit FIFO had room, and the
read index only if the receive FIFO was non-empty. -/
theorem C8_spi_cursor_invariants (N : Nat) (tx : List Nat)
    (hN1 : 1 ≤ N) (hN2 : N ≤ SPI_SIZE_SOFTWARE_BUFFER) :
    (∀ steps : List SpiStep,
      (spiRun (spiArmed N tx) steps).bufferIndexRx
          ≤ (spiRun (spiArmed N tx) steps).bufferIndexTx ∧
      (spiRun (spiArmed N tx) steps).bufferIndexTx
          ≤ (spiRun (spiArmed N tx) steps).bytesToTransfer) ∧
    (∀ s : SpiState, (SpiISRA s).bufferIndexTx ≠ s.bufferIndexTx →
      s.txffst < SPI_SIZE_HARDWARE_FIFO) ∧
    (∀ s : SpiState, (SpiISRA s).bufferIndexRx ≠ s.bufferIndexRx → s.rxFifo ≠ []) := by
  have hN0 : N ≠ 0 := by omega
  refine ⟨?_, ?_, ?_⟩
  · intro steps
    obtain ⟨_, _, h3, _, h5, h6, _, _, _, _, _⟩ :=
      spiInv_run steps _ (spiInv_armed N tx hN2 hN0)
    exact ⟨by omega, h3⟩
  · intro s hne
    unfold SpiISRA at hne
    rw [drainLoop_spec] at hne
    dsimp only at hne
    by_cases hfin : s.bufferIndexRx
        + min (s.bytesToTransfer - s.bufferIndexRx) s.rxFifo.length = s.bytesToTransfer
    · rw [if_pos hfin] at hne
      exact absurd rfl hne
    · rw [if_neg hfin, fillLoop_spec] at hne
      dsimp only at hne
      unfold SPI_SIZE_HARDWARE_FIFO at *
      omega
  · intro s hne hqnil
    unfold SpiISRA at hne
    rw [drainLoop_spec] at hne
    rw [hqnil] at hne
    dsimp only at hne
    simp only [List.length_nil, Nat.min_zero, Nat.add_zero] at hne
    by_cases hfin : s.bufferIndexRx = s.bytesToTransfer
    · rw [if_pos hfin] at hne
      exact absurd rfl hne
    · rw [if_neg hfin] at hne
      dsimp only at hne
      exact absurd rfl hne

theorem C8_spi_cursor_invariants_witness :
    (spiRun (spiArmed 20 (List.replicate 50 0)) []).bufferIndexRx
      ≤ (spiRun (spiArmed 20 (List.replicate 50 0)) []).bufferIndexTx :=
  ((C8_spi_cursor_invariants 20 (List.replicate 50 0) (by decide) (by decide)).1 []).1

/-- The SPI status flag can only hold Idle, InProgress or Finished. -/
def spiStatusOk (s : SpiState) : Prop :=
  s.statusFlag = SPI_STATUS_IDLE ∨ s.statusFlag = SPI_STATUS_IN_PROGRESS ∨
    s.statusFlag = SPI_STATUS_FINISHED

theorem spiStatusOk_op (s : SpiState) (op : SpiOp) (h : spiStatusOk s) :
    spiStatusOk (spiOpRun s op) := by
  cases op with
  | initA => exact Or.inl rfl
  | sendData slave n =>
      unfold spiOpRun SpiSendDataA
      dsimp only
      split
      · exact Or.inr (Or.inl rfl)
      · exact h
  | isr =>
      unfold spiOpRun SpiISRA
      rw [drainLoop_spec]
      dsimp only
      split
      · exact Or.inr (Or.inr rfl)
      · exact h
  | setStatusIdle =>
      unfold spiOpRun SpiSetStatusIdleA
      dsimp only
      split
      · exact Or.inl rfl
      · exact h
  | clock b =>
      unfold spiOpRun spiClock
      dsimp only
      split
      · exact h
      · exact h

/-- C10: from initialization, under any sequence of `SpiInitA`, `SpiSendDataA`,
`SpiISRA` and `SpiSetStatusIdleA` calls (with hardware shifts in between), the
SPI status flag is always Idle, InProgress or Finished — the SPI driver has no
Error state and its handler's only terminal transition is to Finished. -/
theorem C10_spi_no_error_state (s : SpiState) (ops : List SpiOp) :
    (spiOpsRun (SpiInitA s) ops).statusFlag = SPI_STATUS_IDLE ∨
    (spiOpsRun (SpiInitA s) ops).statusFlag = SPI_STATUS_IN_PROGRESS ∨
    (spiOpsRun (SpiInitA s) ops).statusFlag = SPI_STATUS_FINISHED := by
  have hrun : ∀ (l : List SpiOp) (t : SpiState), spiStatusOk t → spiStatusOk (spiOpsRun t l) := by
    intro l
    induction l with
    | nil => intro t h; exact h
    | cons op rest ih =>
        intro t h
        exact ih _ (spiStatusOk_op t op h)
  exact hrun ops (SpiInitA s) (Or.inl rfl)

end LCB
